import Mathlib

/-!
# Verification of the affinidi-did-resolver remote resolution pipeline

A shallow embedding of the core of the `affinidi-did-resolver` repository:

* `RequestList` (SDK, `networking/request_queue.rs`) — the in-flight
  coalescing table keyed by the DID hash;
* `DIDCacheClient::resolve` (SDK, `lib.rs`) together with
  `local_resolve` (`resolver/mod.rs`) — the validation / cache / dispatch
  pipeline;
* `NetworkTask::run` command processing (`networking/network.rs`) — the
  multiplexing task that owns the `RequestList` and the wire;
* the server's per-connection loop `handle_socket`
  (`handlers/websocket.rs`).

External collaborators (the Blake2s-256 hash, the per-method `ssi`
resolvers, `serde_json` frame parsing, the `moka` document cache inside its
TTL window) are modelled as parameters or as plain association maps; the
control flow and state updates are translated from the Rust source.
-/

namespace DidResolver

/-- A reply channel (`tokio::sync::oneshot::Sender<WSCommands>` in the
source) is treated as an opaque identifier. -/
abbrev Responder := Nat

/-- A resolved DID Document (`ssi::dids::Document` in the source) is an
opaque immutable blob; we only ever compare documents for equality. -/
abbrev Document := String

/-! ## Association-list helpers

`RequestList.list` is a `HashMap<String, Vec<(String, Responder)>>` in the
source; we embed it as an association list whose reachable states have
pairwise-distinct keys. -/

/-- First value stored under `key`, mirroring `HashMap::get`. -/
def lookupKey {α : Type} (l : List (String × α)) (key : String) : Option α :=
  match l with
  | [] => none
  | kv :: rest => if kv.1 = key then some kv.2 else lookupKey rest key

/-- Apply `f` to the value stored under `key`, mirroring in-place mutation
through `HashMap::get_mut`. -/
def updateEntry {α : Type} (l : List (String × α)) (key : String) (f : α → α) :
    List (String × α) :=
  match l with
  | [] => []
  | kv :: rest =>
    (if kv.1 = key then (kv.1, f kv.2) else kv) :: updateEntry rest key f

/-- Drop every entry stored under `key`, mirroring `HashMap::remove`
(reachable states hold at most one). -/
def eraseKey {α : Type} (l : List (String × α)) (key : String) : List (String × α) :=
  match l with
  | [] => []
  | kv :: rest =>
    if kv.1 = key then eraseKey rest key else kv :: eraseKey rest key

theorem lookupKey_updateEntry_self {α : Type} (l : List (String × α)) (key : String)
    (f : α → α) : lookupKey (updateEntry l key f) key = (lookupKey l key).map f := by
  induction l with
  | nil => simp [lookupKey, updateEntry]
  | cons kv rest ih =>
    by_cases h : kv.1 = key
    · simp [lookupKey, updateEntry, h]
    · simp [lookupKey, updateEntry, h, ih]

theorem lookupKey_updateEntry_ne {α : Type} (l : List (String × α)) (key k' : String)
    (f : α → α) (hne : k' ≠ key) :
    lookupKey (updateEntry l key f) k' = lookupKey l k' := by
  induction l with
  | nil => simp [lookupKey, updateEntry]
  | cons kv rest ih =>
    by_cases h : kv.1 = key
    · have hk : ¬key = k' := fun hc => hne hc.symm
      simp [lookupKey, updateEntry, h, hk, ih]
    · simp only [lookupKey, updateEntry, h, if_false]
      by_cases h2 : kv.1 = k'
      · simp [lookupKey, h2]
      · simp [lookupKey, h2, ih]

theorem updateEntry_map_fst {α : Type} (l : List (String × α)) (key : String) (f : α → α) :
    (updateEntry l key f).map Prod.fst = l.map Prod.fst := by
  induction l with
  | nil => rfl
  | cons kv rest ih =>
    by_cases h : kv.1 = key <;> simp [updateEntry, h, ih]

theorem updateEntry_length {α : Type} (l : List (String × α)) (key : String) (f : α → α) :
    (updateEntry l key f).length = l.length := by
  induction l with
  | nil => rfl
  | cons kv rest ih => simp [updateEntry, ih]

theorem lookupKey_eq_none_iff {α : Type} (l : List (String × α)) (key : String) :
    lookupKey l key = none ↔ ∀ kv ∈ l, kv.1 ≠ key := by
  induction l with
  | nil => simp [lookupKey]
  | cons kv rest ih =>
    by_cases h : kv.1 = key
    · simp [lookupKey, h]
    · simp [lookupKey, h, ih]

theorem lookupKey_isSome_of_mem {α : Type} {l : List (String × α)} {key : String}
    {v : α} (h : (key, v) ∈ l) : (lookupKey l key).isSome := by
  induction l with
  | nil => simp at h
  | cons kv rest ih =>
    rcases List.mem_cons.mp h with h | h
    · simp [lookupKey, ← h]
    · by_cases hk : kv.1 = key
      · simp [lookupKey, hk]
      · simpa [lookupKey, hk] using ih h

theorem mem_of_lookupKey_eq_some {α : Type} {l : List (String × α)} {key : String}
    {v : α} (h : lookupKey l key = some v) : (key, v) ∈ l := by
  induction l with
  | nil => simp [lookupKey] at h
  | cons kv rest ih =>
    by_cases hk : kv.1 = key
    · simp [lookupKey, hk] at h
      have : kv = (key, v) := Prod.ext hk h
      exact this ▸ List.mem_cons_self kv rest
    · simp [lookupKey, hk] at h
      exact List.mem_cons_of_mem _ (ih h)

theorem lookupKey_eraseKey_self {α : Type} (l : List (String × α)) (key : String) :
    lookupKey (eraseKey l key) key = none := by
  induction l with
  | nil => simp [lookupKey, eraseKey]
  | cons kv rest ih =>
    by_cases h : kv.1 = key <;> simp [lookupKey, eraseKey, h, ih]

theorem eraseKey_sublist {α : Type} (l : List (String × α)) (key : String) :
    ∀ kv ∈ eraseKey l key, kv ∈ l := by
  induction l with
  | nil => simp [eraseKey]
  | cons kv rest ih =>
    intro p hp
    by_cases h : kv.1 = key
    · simp only [eraseKey, h, if_true] at hp
      exact List.mem_cons_of_mem _ (ih p hp)
    · simp only [eraseKey, h, if_false] at hp
      rcases List.mem_cons.mp hp with hp | hp
      · exact hp ▸ List.mem_cons_self kv rest
      · exact List.mem_cons_of_mem _ (ih p hp)

theorem eraseKey_eq_self {α : Type} (l : List (String × α)) (key : String)
    (h : lookupKey l key = none) : eraseKey l key = l := by
  induction l with
  | nil => rfl
  | cons kv rest ih =>
    by_cases hk : kv.1 = key
    · simp [lookupKey, hk] at h
    · simp only [lookupKey, hk, if_false] at h
      simp [eraseKey, hk, ih h]

/-- With pairwise-distinct keys, erasing a present key shortens the list by
exactly one. -/
theorem eraseKey_length {α : Type} (l : List (String × α)) (key : String)
    (hnd : (l.map Prod.fst).Nodup) (hmem : (lookupKey l key).isSome) :
    (eraseKey l key).length + 1 = l.length := by
  induction l with
  | nil => simp [lookupKey] at hmem
  | cons kv rest ih =>
    simp only [List.map_cons, List.nodup_cons] at hnd
    by_cases h : kv.1 = key
    · have hnone : lookupKey rest key = none := by
        rw [lookupKey_eq_none_iff]
        intro p hp hpk
        exact hnd.1 (h ▸ hpk ▸ List.mem_map_of_mem Prod.fst hp)
      simp [eraseKey, h, eraseKey_eq_self rest key hnone]
    · have hmem' : (lookupKey rest key).isSome := by
        simpa [lookupKey, h] using hmem
      simp only [eraseKey, h, if_false, List.length_cons]
      rw [← ih hnd.2 hmem']

theorem eraseKey_map_fst_nodup {α : Type} (l : List (String × α)) (key : String)
    (hnd : (l.map Prod.fst).Nodup) : ((eraseKey l key).map Prod.fst).Nodup := by
  induction l with
  | nil => simp [eraseKey]
  | cons kv rest ih =>
    simp only [List.map_cons, List.nodup_cons] at hnd
    by_cases h : kv.1 = key
    · simp only [eraseKey, h, if_true]
      exact ih hnd.2
    · simp only [eraseKey, h, if_false, List.map_cons, List.nodup_cons]
      refine ⟨fun hc => ?_, ih hnd.2⟩
      rcases List.mem_map.mp hc with ⟨p, hp, hpk⟩
      exact hnd.1 (hpk ▸ List.mem_map_of_mem Prod.fst (eraseKey_sublist rest key p hp))

/-! ## RequestList (`networking/request_queue.rs`)

```rust
pub(crate) struct RequestList {
    list: HashMap<String, Vec<(String, Responder)>>,
    list_full: bool,
    limit_count: u32,
    total_count: u32,
}
```
-/

/-- The in-flight coalescing table owned by `NetworkTask`. -/
structure RequestList where
  list : List (String × List (String × Responder))
  list_full : Bool
  limit_count : Nat
  total_count : Nat
deriving Repr, DecidableEq

/-- `RequestList::new` (the `limit` argument stands for
`config.network_cache_limit_count`). -/
def RequestList.new (limit : Nat) : RequestList :=
  { list := [], list_full := false, limit_count := limit, total_count := 0 }

/-- `RequestList::insert`: appending to an existing key returns `false`
(coalesced); a fresh key increments `total_count`, raises `list_full` when
`total_count > limit_count`, and returns `true`. -/
def RequestList.insert (rl : RequestList) (key : String) (uid : String)
    (channel : Responder) : RequestList × Bool :=
  match lookupKey rl.list key with
  | some _ =>
    ({ rl with list := updateEntry rl.list key (fun e => e ++ [(uid, channel)]) }, false)
  | none =>
    let rl1 : RequestList :=
      { rl with
        list := rl.list ++ [(key, [(uid, channel)])],
        total_count := rl.total_count + 1 }
    let rl2 : RequestList :=
      if rl1.total_count > rl1.limit_count then { rl1 with list_full := true } else rl1
    (rl2, true)

/-- `Vec::iter().position(...)` followed by `Vec::remove(index)`: take out
the first pair carrying `uid`, returning it together with the remaining
pairs. -/
def removeFirst (channels : List (String × Responder)) (uid : String) :
    Option (Responder × List (String × Responder)) :=
  match channels with
  | [] => none
  | (id, ch) :: rest =>
    if id = uid then some (ch, rest)
    else
      match removeFirst rest uid with
      | some (c, rest2) => some (c, (id, ch) :: rest2)
      | none => none

/-- The in-place `Vec::remove(index)` seen from outside: the key's list
with the first pair carrying `uid` dropped (unchanged when absent). -/
def dropFirstUid (uid : String) (e : List (String × Responder)) :
    List (String × Responder) :=
  match removeFirst e uid with
  | some pr => pr.2
  | none => e

/-- `RequestList::remove`.  With `some uid` it removes that caller's pair
and, if the key's list became empty, drops the key, decrements
`total_count` and clears `list_full`; with `none` it removes the whole
entry, decrements `total_count` and clears `list_full`. -/
def RequestList.remove (rl : RequestList) (key : String) (uid : Option String) :
    RequestList × Option (List Responder) :=
  match uid with
  | some uid =>
    let step1 : RequestList × Option (List Responder) :=
      match lookupKey rl.list key with
      | some channels =>
        match removeFirst channels uid with
        | some pr =>
          ({ rl with list := updateEntry rl.list key (dropFirstUid uid) }, some [pr.1])
        | none => (rl, none)
      | none => (rl, none)
    let rl1 := step1.1
    let rl2 : RequestList :=
      match lookupKey rl1.list key with
      | some channels =>
        if channels.isEmpty then
          { rl1 with
            list := eraseKey rl1.list key,
            total_count := rl1.total_count - 1,
            list_full := false }
        else rl1
      | none => rl1
    (rl2, step1.2)
  | none =>
    match lookupKey rl.list key with
    | some channels =>
      ({ rl with
         list := eraseKey rl.list key,
         total_count := rl.total_count - 1,
         list_full := false },
       some (channels.map Prod.snd))
    | none => (rl, none)

/-- `RequestList::is_full`. -/
def RequestList.is_full (rl : RequestList) : Bool := rl.list_full

/-- One mutating call on the `RequestList`. -/
inductive ReqOp where
  | ins (key uid : String) (channel : Responder)
  | rem (key : String) (uid : Option String)
deriving Repr, DecidableEq

/-- Apply one operation, discarding the returned value. -/
def applyOp (rl : RequestList) : ReqOp → RequestList
  | .ins key uid channel => (rl.insert key uid channel).1
  | .rem key uid => (rl.remove key uid).1

/-- Run a sequence of operations from `RequestList::new`. -/
def runOps (limit : Nat) (ops : List ReqOp) : RequestList :=
  ops.foldl applyOp (RequestList.new limit)

/-! ## RequestList invariants -/

/-- Well-formedness of a `RequestList` state: distinct keys, `total_count`
counts the keys, every key's waiter list is non-empty, the configured limit
is fixed, and a raised `list_full` flag implies the count exceeds the
limit. -/
def RequestList.WF (limit : Nat) (rl : RequestList) : Prop :=
  (rl.list.map Prod.fst).Nodup ∧
  rl.total_count = rl.list.length ∧
  (∀ kv ∈ rl.list, kv.2 ≠ []) ∧
  rl.limit_count = limit ∧
  (rl.list_full = true → rl.total_count > rl.limit_count)

theorem lookupKey_eq_of_mem_nodup {α : Type} {l : List (String × α)}
    (hnd : (l.map Prod.fst).Nodup) {key : String} {v : α} (h : (key, v) ∈ l) :
    lookupKey l key = some v := by
  induction l with
  | nil => simp at h
  | cons kv rest ih =>
    simp only [List.map_cons, List.nodup_cons] at hnd
    rcases List.mem_cons.mp h with h | h
    · simp [lookupKey, ← h]
    · have hk : kv.1 ≠ key := by
        intro hc
        exact hnd.1 (hc ▸ List.mem_map_of_mem Prod.fst h)
      simp only [lookupKey, hk, if_false]
      exact ih hnd.2 h

theorem mem_updateEntry {α : Type} {l : List (String × α)} {key : String} {f : α → α}
    {kv : String × α} (h : kv ∈ updateEntry l key f) :
    kv ∈ l ∨ ∃ v, (key, v) ∈ l ∧ kv = (key, f v) := by
  induction l with
  | nil => simp [updateEntry] at h
  | cons p rest ih =>
    by_cases hp : p.1 = key
    · simp only [updateEntry, hp, if_true] at h
      rcases List.mem_cons.mp h with h | h
      · right
        exact ⟨p.2, by rw [← hp]; simp, h⟩
      · rcases ih h with h | ⟨v, hv, hkv⟩
        · exact Or.inl (List.mem_cons_of_mem _ h)
        · exact Or.inr ⟨v, List.mem_cons_of_mem _ hv, hkv⟩
    · simp only [updateEntry, hp, if_false] at h
      rcases List.mem_cons.mp h with h | h
      · exact Or.inl (h ▸ List.mem_cons_self p rest)
      · rcases ih h with h | ⟨v, hv, hkv⟩
        · exact Or.inl (List.mem_cons_of_mem _ h)
        · exact Or.inr ⟨v, List.mem_cons_of_mem _ hv, hkv⟩

theorem mem_eraseKey {α : Type} {l : List (String × α)} {key : String}
    {kv : String × α} (h : kv ∈ eraseKey l key) : kv ∈ l ∧ kv.1 ≠ key := by
  induction l with
  | nil => simp [eraseKey] at h
  | cons p rest ih =>
    by_cases hp : p.1 = key
    · simp only [eraseKey, hp, if_true] at h
      exact ⟨List.mem_cons_of_mem _ (ih h).1, (ih h).2⟩
    · simp only [eraseKey, hp, if_false] at h
      rcases List.mem_cons.mp h with h | h
      · exact ⟨h ▸ List.mem_cons_self p rest, h ▸ hp⟩
      · exact ⟨List.mem_cons_of_mem _ (ih h).1, (ih h).2⟩

theorem lookupKey_append_self {α : Type} (l : List (String × α)) (key : String) (v : α)
    (h : lookupKey l key = none) : lookupKey (l ++ [(key, v)]) key = some v := by
  induction l with
  | nil => simp [lookupKey]
  | cons kv rest ih =>
    by_cases hk : kv.1 = key
    · simp [lookupKey, hk] at h
    · simp only [lookupKey, hk, if_false] at h ⊢
      exact ih h

theorem removeFirst_eq_none {channels : List (String × Responder)} {uid : String}
    (h : ∀ p ∈ channels, p.1 ≠ uid) : removeFirst channels uid = none := by
  induction channels with
  | nil => rfl
  | cons p rest ih =>
    have hp : p.1 ≠ uid := h p (List.mem_cons_self p rest)
    obtain ⟨id, ch⟩ := p
    simp only [removeFirst]
    rw [if_neg hp, ih (fun q hq => h q (List.mem_cons_of_mem _ hq))]

/-- `RequestList::insert` preserves well-formedness. -/
theorem WF_insert {limit : Nat} {rl : RequestList} (hwf : rl.WF limit)
    (key uid : String) (channel : Responder) :
    ((rl.insert key uid channel).1).WF limit := by
  obtain ⟨hnd, hcount, hne, hlim, hfull⟩ := hwf
  unfold RequestList.insert
  cases hlk : lookupKey rl.list key with
  | some channels =>
    refine ⟨?_, ?_, ?_, hlim, hfull⟩
    · simpa [updateEntry_map_fst] using hnd
    · simpa [updateEntry_length] using hcount
    · intro kv hkv
      rcases mem_updateEntry hkv with h | ⟨v, _, hkv⟩
      · exact hne kv h
      · simp [hkv]
  | none =>
    have hkeys : ((rl.list ++ [(key, [(uid, channel)])]).map Prod.fst).Nodup := by
      simp only [List.map_append, List.map_cons, List.map_nil]
      rw [List.nodup_append]
      refine ⟨hnd, List.nodup_singleton key, ?_⟩
      intro a ha hb
      simp only [List.mem_singleton] at hb
      rcases List.mem_map.mp ha with ⟨p, hp, hpk⟩
      exact (lookupKey_eq_none_iff rl.list key).mp hlk p hp (hpk.trans hb)
    have hcount' : rl.total_count + 1 = (rl.list ++ [(key, [(uid, channel)])]).length := by
      simp [hcount]
    have hne' : ∀ kv ∈ rl.list ++ [(key, [(uid, channel)])],
        kv.2 ≠ ([] : List (String × Responder)) := by
      intro kv hkv
      rcases List.mem_append.mp hkv with h | h
      · exact hne kv h
      · simp only [List.mem_singleton] at h
        simp [h]
    by_cases hgt : rl.total_count + 1 > rl.limit_count
    · simp only [hgt, if_pos]
      exact ⟨hkeys, hcount', hne', hlim, fun _ => hgt⟩
    · simp only [hgt, if_neg, not_false_iff]
      exact ⟨hkeys, hcount', hne', hlim, fun hf => by
        have := hfull hf
        omega⟩

theorem dropFirstUid_eq {uid : String} {e : List (String × Responder)}
    {pr : Responder × List (String × Responder)} (h : removeFirst e uid = some pr) :
    dropFirstUid uid e = pr.2 := by
  simp [dropFirstUid, h]

/-- `RequestList::remove` preserves well-formedness. -/
theorem WF_remove {limit : Nat} {rl : RequestList} (hwf : rl.WF limit)
    (key : String) (uid : Option String) :
    ((rl.remove key uid).1).WF limit := by
  obtain ⟨hnd, hcount, hne, hlim, hfull⟩ := hwf
  cases uid with
  | none =>
    cases hlk : lookupKey rl.list key with
    | none =>
      simp only [RequestList.remove, hlk]
      exact ⟨hnd, hcount, hne, hlim, hfull⟩
    | some channels =>
      simp only [RequestList.remove, hlk]
      refine ⟨eraseKey_map_fst_nodup _ _ hnd, ?_, ?_, hlim, by simp⟩
      · show rl.total_count - 1 = (eraseKey rl.list key).length
        have h1 := eraseKey_length rl.list key hnd (by simp [hlk])
        omega
      · intro kv hkv
        exact hne kv (mem_eraseKey hkv).1
  | some uid =>
    cases hlk : lookupKey rl.list key with
    | none =>
      simp only [RequestList.remove, hlk]
      exact ⟨hnd, hcount, hne, hlim, hfull⟩
    | some channels =>
      cases hrf : removeFirst channels uid with
      | none =>
        have hemp : channels.isEmpty = false := by
          have := hne (key, channels) (mem_of_lookupKey_eq_some hlk)
          simpa [List.isEmpty_iff] using this
        simp only [RequestList.remove, hlk, hrf, hemp, Bool.false_eq_true, if_false]
        exact ⟨hnd, hcount, hne, hlim, hfull⟩
      | some pr =>
        have hlk1 : lookupKey (updateEntry rl.list key (dropFirstUid uid)) key =
            some pr.2 := by
          rw [lookupKey_updateEntry_self, hlk]
          simp [dropFirstUid_eq hrf]
        have hnd1 : ((updateEntry rl.list key (dropFirstUid uid)).map Prod.fst).Nodup := by
          rw [updateEntry_map_fst]
          exact hnd
        cases hemp : pr.2.isEmpty with
        | true =>
          simp only [RequestList.remove, hlk, hrf, hlk1, hemp, if_true]
          have hlen1 := eraseKey_length (updateEntry rl.list key (dropFirstUid uid)) key
            hnd1 (by simp [hlk1])
          have hlen2 := updateEntry_length rl.list key (dropFirstUid uid)
          refine ⟨eraseKey_map_fst_nodup _ _ hnd1,
            show rl.total_count - 1 =
              (eraseKey (updateEntry rl.list key (dropFirstUid uid)) key).length by omega,
            ?_, hlim, by simp⟩
          intro kv hkv
          obtain ⟨hkv1, hkv2⟩ := mem_eraseKey hkv
          rcases mem_updateEntry hkv1 with h | ⟨v, _, hv⟩
          · exact hne kv h
          · exact absurd (by rw [hv]) hkv2
        | false =>
          simp only [RequestList.remove, hlk, hrf, hlk1, hemp, Bool.false_eq_true, if_false]
          refine ⟨hnd1, ?_, ?_, hlim, hfull⟩
          · rw [updateEntry_length]
            exact hcount
          · intro kv hkv
            rcases mem_updateEntry hkv with h | ⟨v, hv, hveq⟩
            · exact hne kv h
            · have hvc : v = channels := by
                have := lookupKey_eq_of_mem_nodup hnd hv
                rw [hlk] at this
                exact (Option.some.inj this).symm
              rw [hveq, hvc]
              simp only [ne_eq]
              rw [dropFirstUid_eq hrf]
              intro hc
              rw [hc] at hemp
              simp [List.isEmpty] at hemp

theorem WF_new (limit : Nat) : (RequestList.new limit).WF limit :=
  ⟨List.nodup_nil, rfl, by simp [RequestList.new], rfl, by simp [RequestList.new]⟩

theorem WF_applyOp {limit : Nat} {rl : RequestList} (h : rl.WF limit) (op : ReqOp) :
    (applyOp rl op).WF limit := by
  cases op with
  | ins key uid channel => exact WF_insert h key uid channel
  | rem key uid => exact WF_remove h key uid

theorem WF_runOps (limit : Nat) (ops : List ReqOp) : (runOps limit ops).WF limit := by
  suffices h : ∀ rl, rl.WF limit → (ops.foldl applyOp rl).WF limit from
    h _ (WF_new limit)
  induction ops with
  | nil => exact fun rl h => h
  | cons op rest ih => exact fun rl h => ih _ (WF_applyOp h op)

/-- Removing the last caller of a key drops the key and decrements the
count. -/
theorem remove_last_caller {rl : RequestList}
    {key uid : String} {ch : Responder}
    (h : lookupKey rl.list key = some [(uid, ch)]) :
    lookupKey ((rl.remove key (some uid)).1).list key = none ∧
    ((rl.remove key (some uid)).1).total_count = rl.total_count - 1 := by
  have hrf : removeFirst [(uid, ch)] uid = some (ch, []) := by
    simp [removeFirst]
  have hlk1 : lookupKey (updateEntry rl.list key (dropFirstUid uid)) key =
      some ([] : List (String × Responder)) := by
    rw [lookupKey_updateEntry_self, h]
    simp [dropFirstUid, hrf]
  constructor
  · simp only [RequestList.remove, h, hrf, hlk1, List.isEmpty_nil, if_true]
    exact lookupKey_eraseKey_self _ _
  · simp only [RequestList.remove, h, hrf, hlk1, List.isEmpty_nil, if_true]

/-- C3.  In every state reachable from `RequestList::new` by `insert` and
`remove` calls, `total_count` equals the number of distinct `did_hash`
keys (the keys are pairwise distinct and counted by `total_count`), every
stored waiter list is non-empty, and removing the last caller of a key
removes the key and decrements `total_count`. -/
theorem requestList_count_invariant (limit : Nat) (ops : List ReqOp) :
    (((runOps limit ops).list.map Prod.fst).Nodup ∧
      (runOps limit ops).total_count = (runOps limit ops).list.length) ∧
    (∀ kv ∈ (runOps limit ops).list, kv.2 ≠ []) ∧
    (∀ (key uid : String) (ch : Responder),
      lookupKey (runOps limit ops).list key = some [(uid, ch)] →
      lookupKey (((runOps limit ops).remove key (some uid)).1).list key = none ∧
      (((runOps limit ops).remove key (some uid)).1).total_count =
        (runOps limit ops).total_count - 1) := by
  have hwf := WF_runOps limit ops
  exact ⟨⟨hwf.1, hwf.2.1⟩, hwf.2.2.1,
    fun key uid ch h => remove_last_caller h⟩

/-- Witness for C3's conditional clause at a concrete reachable state. -/
theorem requestList_count_invariant_witness :
    lookupKey (runOps 5 [.ins "a" "u1" 7]).list "a" = some [("u1", 7)] ∧
    lookupKey (((runOps 5 [.ins "a" "u1" 7]).remove "a" (some "u1")).1).list "a" = none ∧
    (((runOps 5 [.ins "a" "u1" 7]).remove "a" (some "u1")).1).total_count =
      (runOps 5 [.ins "a" "u1" 7]).total_count - 1 :=
  ⟨by decide,
    ((requestList_count_invariant 5 [.ins "a" "u1" 7]).2.2 "a" "u1" 7 (by decide)).1,
    ((requestList_count_invariant 5 [.ins "a" "u1" 7]).2.2 "a" "u1" 7 (by decide)).2⟩

/-- C4 counterexample.  With `network_cache_limit_count = 0`, inserting two
distinct keys and removing one reaches a state with `total_count = 1 > 0`
while `is_full()` reports `false`: every `remove` clears the flag
unconditionally, so `is_full()` is **not** equivalent to
`total_count > limit`. -/
theorem is_full_iff_counterexample :
    (runOps 0 [.ins "a" "u1" 0, .ins "b" "u2" 1, .rem "a" none]).total_count = 1 ∧
    (runOps 0 [.ins "a" "u1" 0, .ins "b" "u2" 1, .rem "a" none]).limit_count = 0 ∧
    (runOps 0 [.ins "a" "u1" 0, .ins "b" "u2" 1, .rem "a" none]).is_full = false := by
  decide

/-- C4 amended.  In every reachable state, `is_full() = true` implies
`total_count > network_cache_limit_count`; the converse direction fails
because `remove` clears the flag even when the count still exceeds the
limit (see the counterexample). -/
theorem is_full_implies_over_limit (limit : Nat) (ops : List ReqOp)
    (h : (runOps limit ops).is_full = true) :
    (runOps limit ops).total_count > limit := by
  have hwf := WF_runOps limit ops
  have := hwf.2.2.2.2 h
  rw [hwf.2.2.2.1] at this
  exact this

/-- Witness for the amended C4 at a concrete reachable state. -/
theorem is_full_implies_over_limit_witness :
    (runOps 0 [.ins "a" "u1" 0]).is_full = true ∧
    (runOps 0 [.ins "a" "u1" 0]).total_count > 0 :=
  ⟨by decide, is_full_implies_over_limit 0 [.ins "a" "u1" 0] (by decide)⟩

/-- C10.  `RequestList::remove` is a no-op on a miss: when no pair with
`uid` is stored under `key` (including when `key` is absent),
`remove(key, Some(uid))` returns `None` and leaves the whole state — map,
`total_count` and `list_full` — unchanged; `remove(key, None)` on an
absent key likewise returns `None` and changes nothing.  (The hypothesis
that stored waiter lists are non-empty holds in every reachable state by
`requestList_count_invariant`.) -/
theorem remove_miss_noop (rl : RequestList) (key uid : String)
    (hne : ∀ kv ∈ rl.list, kv.2 ≠ ([] : List (String × Responder)))
    (hmiss : ∀ p ∈ (lookupKey rl.list key).getD [], p.1 ≠ uid) :
    rl.remove key (some uid) = (rl, none) ∧
    (lookupKey rl.list key = none → rl.remove key none = (rl, none)) := by
  cases hlk : lookupKey rl.list key with
  | none =>
    constructor
    · simp only [RequestList.remove, hlk]
    · intro _
      simp only [RequestList.remove, hlk]
  | some channels =>
    have hrf : removeFirst channels uid = none := by
      apply removeFirst_eq_none
      intro p hp
      exact hmiss p (by simp [hlk, hp])
    have hemp : channels.isEmpty = false := by
      have := hne (key, channels) (mem_of_lookupKey_eq_some hlk)
      simpa [List.isEmpty_iff] using this
    constructor
    · simp only [RequestList.remove, hlk, hrf, hemp, Bool.false_eq_true, if_false]
    · intro hc
      exact absurd hc (by simp)

/-- Witness for C10 at a concrete state. -/
theorem remove_miss_noop_witness :
    ({ list := [("a", [("u1", 5)])], list_full := false, limit_count := 3,
       total_count := 1 } : RequestList).remove "a" (some "u2") =
      ({ list := [("a", [("u1", 5)])], list_full := false, limit_count := 3,
         total_count := 1 }, none) :=
  (remove_miss_noop _ "a" "u2" (by decide) (by decide)).1

/-! ## Errors and configuration (`errors.rs`, `config.rs`)

The `DIDCacheError` enum itself lives in `errors.rs`, which is not part of
the sources at hand; its variants are reconstructed from their uses in
`lib.rs`, `resolver/mod.rs`, `networking/network.rs` and the spec's §7
error taxonomy. -/

/-- Rust's `str::split(sep)` on a single character: splitting a string of
`n` separator occurrences yields `n + 1` (possibly empty) pieces. -/
def splitCharAux (sep : Char) : List Char → List Char → List (List Char)
  | [], acc => [acc.reverse]
  | c :: cs, acc =>
    if c = sep then acc.reverse :: splitCharAux sep cs []
    else splitCharAux sep cs (c :: acc)

/-- `did.split(':')` / `segment.split(".")` of the Rust sources. -/
def splitOnChar (sep : Char) (s : String) : List String :=
  (splitCharAux sep s.data []).map String.mk

/-- `str::to_lowercase` restricted to the ASCII range (method tokens are
ASCII). -/
def toLowerStr (s : String) : String :=
  String.mk (s.data.map Char.toLower)

def exceptDecEq {ε α : Type} [DecidableEq ε] [DecidableEq α] :
    (a b : Except ε α) → Decidable (a = b)
  | .ok x, .ok y =>
    if h : x = y then isTrue (by rw [h]) else isFalse (fun hc => h (Except.ok.inj hc))
  | .ok _, .error _ => isFalse (fun hc => Except.noConfusion hc)
  | .error _, .ok _ => isFalse (fun hc => Except.noConfusion hc)
  | .error e, .error f =>
    if h : e = f then isTrue (by rw [h]) else isFalse (fun hc => h (Except.error.inj hc))

instance {ε α : Type} [DecidableEq ε] [DecidableEq α] : DecidableEq (Except ε α) :=
  exceptDecEq

/-- Modelled from the spec: error taxonomy of §7 (`errors.rs` is absent
from the sources); variant names as used throughout the SDK sources. -/
inductive DIDCacheError where
  | ConfigError (msg : String)
  | DIDError (msg : String)
  | UnsupportedMethod (method : String)
  | TransportError (msg : String)
  | TimeoutError (msg : String)
deriving Repr, DecidableEq

/-- `DIDMethod` (`lib.rs`): the methods supported by the resolver cache. -/
inductive DIDMethod where
  | ETHR | JWK | KEY | PEER | PKH | WEB
deriving Repr, DecidableEq

/-- `TryFrom<&str> for DIDMethod` (`lib.rs`): lowercase the token and match
it against the six supported methods, anything else is
`UnsupportedMethod`. -/
def DIDMethod.tryFrom (value : String) : Except DIDCacheError DIDMethod :=
  if toLowerStr value = "ethr" then .ok .ETHR
  else if toLowerStr value = "jwk" then .ok .JWK
  else if toLowerStr value = "key" then .ok .KEY
  else if toLowerStr value = "peer" then .ok .PEER
  else if toLowerStr value = "pkh" then .ok .PKH
  else if toLowerStr value = "web" then .ok .WEB
  else .error (.UnsupportedMethod value)

/-- `ClientConfig` (`config.rs`).  `max_did_size_in_kb` is an `f64` in the
source; it is embedded as an exact rational, which agrees with the `f64`
comparison for every configuration and DID size in the representable
range. -/
structure ClientConfig where
  service_address : Option String
  cache_capacity : Nat
  cache_ttl : Nat
  network_timeout : Nat
  network_cache_limit_count : Nat
  max_did_parts : Nat
  max_did_size_in_kb : ℚ
deriving Repr, DecidableEq

/-- `ClientConfigBuilder::default().build()` (`config.rs`). -/
def defaultConfig : ClientConfig :=
  { service_address := none
    cache_capacity := 100
    cache_ttl := 300
    network_timeout := 5000
    network_cache_limit_count := 100
    max_did_parts := 5
    max_did_size_in_kb := 1 }

/-! ## The document cache

The SDK's cache is a `moka` TTL + capacity bounded map (an external
collaborator).  Within one TTL window and absent capacity evictions —
exactly the hypotheses of the cache claims — it behaves as a plain map
from `did_hash` to `Document`, which is how it is embedded. -/

abbrev DocCache := List (String × Document)

/-- `Cache::get`. -/
def cacheGet (cache : DocCache) (hash : String) : Option Document :=
  lookupKey cache hash

/-- `Cache::insert` (silent overwrite). -/
def cacheInsert (cache : DocCache) (hash : String) (doc : Document) : DocCache :=
  match lookupKey cache hash with
  | some _ => updateEntry cache hash (fun _ => doc)
  | none => cache ++ [(hash, doc)]

/-- `Cache::remove`. -/
def cacheRemove (cache : DocCache) (hash : String) : DocCache × Option Document :=
  (eraseKey cache hash, lookupKey cache hash)

theorem cacheGet_cacheInsert_self (cache : DocCache) (hash : String) (doc : Document) :
    cacheGet (cacheInsert cache hash doc) hash = some doc := by
  unfold cacheGet cacheInsert
  cases hlk : lookupKey cache hash with
  | some v =>
    rw [lookupKey_updateEntry_self, hlk]
    rfl
  | none => exact lookupKey_append_self cache hash doc hlk

/-! ## `DIDCacheClient::resolve` (`lib.rs`) and `local_resolve`
(`resolver/mod.rs`)

The Blake2s-256 hash is the parameter `H`; the external per-method `ssi`
resolvers are the parameter `ext` (token and DID in, document or error
string out, errors wrapped as `DIDError(e.to_string())` exactly as in
`resolver/mod.rs`); the network round-trip `network_resolve` (not among
the sources; spec §4.5) is the parameter `netResolve`. -/

/-- `ResolveResponse` (`lib.rs`). -/
structure ResolveResponse where
  did : String
  method : DIDMethod
  did_hash : String
  doc : Document
  cache_hit : Bool
deriving Repr, DecidableEq

/-- The oversized-DID error text of `resolve` (`lib.rs`); the `format!`
float rendering is abstracted, the message carries both the DID size in KB
and the configured limit. -/
def sizeErrMsg (didSizeInKb maxKb : ℚ) : String :=
  "The DID size of " ++ toString didSizeInKb ++ "KB exceeds the limit of "
    ++ toString maxKb ++ "KB. Please ensure the size is less than "
    ++ toString maxKb ++ "KB."

/-- The too-many-parts error text of `resolve` (`lib.rs`); note the source
reports `parts.len()`, not `key_parts.len()`. -/
def partsErrMsg (maxParts partsLen : Nat) : String :=
  "The total number of keys and/or services must be less than or equal to "
    ++ toString maxParts ++ ", but " ++ toString partsLen ++ " were found."

/-- The size guard of `resolve` (`lib.rs`):
`did.len() as f64 / 1000.0 > max_did_size_in_kb`, in exact arithmetic. -/
def sizeGuard (cfg : ClientConfig) (did : String) : Option DIDCacheError :=
  let didSizeInKb : ℚ := (did.length : ℚ) / 1000
  if didSizeInKb > cfg.max_did_size_in_kb then
    some (.DIDError (sizeErrMsg didSizeInKb cfg.max_did_size_in_kb))
  else none

/-- The shape guard of `resolve` (`lib.rs`): at least 3 colon-separated
segments, and the last segment splits on `.` into at most
`max_did_parts` parts. -/
def shapeGuard (cfg : ClientConfig) (did : String) (parts : List String) :
    Option DIDCacheError :=
  if parts.length < 3 then
    some (.DIDError ("did isn't to spec! did (" ++ did ++ ")"))
  else
    let key_parts := splitOnChar '.' (parts.getLastD "")
    if key_parts.length > cfg.max_did_parts then
      some (.DIDError (partsErrMsg cfg.max_did_parts parts.length))
    else none

/-- `DIDCacheClient::local_resolve` (`resolver/mod.rs`): dispatch on the
method token `parts[1]` to the external resolver; each supported arm maps
a resolver failure to `DIDError(e.to_string())`; an unknown token yields
`DIDError("DID Method (m) not supported")`. -/
def localResolve (ext : String → String → Except String Document)
    (did : String) (parts : List String) : Except DIDCacheError Document :=
  let m := parts.getD 1 ""
  if m = "ethr" ∨ m = "jwk" ∨ m = "key" ∨ m = "peer" ∨ m = "pkh" ∨ m = "web" then
    match ext m did with
    | .ok doc => .ok doc
    | .error e => .error (.DIDError e)
  else
    .error (.DIDError ("DID Method (" ++ m ++ ") not supported"))

/-- `DIDCacheClient::resolve` (`lib.rs`): size guard, hash, shape guard,
cache lookup; on a miss resolve via the network (when a `service_address`
is configured) or locally, then populate the cache.  The shared mutable
`moka` cache is threaded explicitly: the result is the returned
`Result` together with the cache state after the call. -/
def resolve (cfg : ClientConfig) (H : String → String)
    (netResolve : String → String → Except DIDCacheError Document)
    (ext : String → String → Except String Document)
    (cache : DocCache) (did : String) :
    Except DIDCacheError ResolveResponse × DocCache :=
  match sizeGuard cfg did with
  | some e => (.error e, cache)
  | none =>
    let did_hash := H did
    let parts := splitOnChar ':' did
    match shapeGuard cfg did parts with
    | some e => (.error e, cache)
    | none =>
      match cacheGet cache did_hash with
      | some doc =>
        match DIDMethod.tryFrom (parts.getD 1 "") with
        | .ok m =>
          (.ok { did := did, method := m, did_hash := did_hash, doc := doc,
                 cache_hit := true }, cache)
        | .error e => (.error e, cache)
      | none =>
        match
          (if cfg.service_address.isSome then netResolve did did_hash
           else localResolve ext did parts) with
        | .error e => (.error e, cache)
        | .ok doc =>
          let cache2 := cacheInsert cache did_hash doc
          match DIDMethod.tryFrom (parts.getD 1 "") with
          | .ok m =>
            (.ok { did := did, method := m, did_hash := did_hash, doc := doc,
                   cache_hit := false }, cache2)
          | .error e => (.error e, cache2)

/-- `DIDCacheClient::remove` (`lib.rs`): rehash the DID and evict it from
the document cache. -/
def clientRemove (H : String → String) (cache : DocCache) (did : String) :
    DocCache × Option Document :=
  cacheRemove cache (H did)

/-! ## Guard characterizations and the resolve-pipeline claims -/

theorem sizeGuard_isNone_iff (cfg : ClientConfig) (did : String) :
    sizeGuard cfg did = none ↔ (did.length : ℚ) ≤ cfg.max_did_size_in_kb * 1000 := by
  have hiff : ((did.length : ℚ) / 1000 > cfg.max_did_size_in_kb) ↔
      ¬ ((did.length : ℚ) ≤ cfg.max_did_size_in_kb * 1000) := by
    rw [gt_iff_lt, lt_div_iff₀ (by norm_num : (0 : ℚ) < 1000), not_le]
  simp only [sizeGuard]
  split_ifs with h
  · exact iff_of_false (by simp) (hiff.mp h)
  · exact iff_of_true rfl (by by_contra hc; exact h (hiff.mpr hc))

theorem sizeGuard_eq_some (cfg : ClientConfig) (did : String)
    (h : cfg.max_did_size_in_kb * 1000 < (did.length : ℚ)) :
    sizeGuard cfg did =
      some (.DIDError (sizeErrMsg ((did.length : ℚ) / 1000) cfg.max_did_size_in_kb)) := by
  simp only [sizeGuard]
  rw [if_pos]
  rw [gt_iff_lt, lt_div_iff₀ (by norm_num : (0 : ℚ) < 1000)]
  exact h

/-- A stub for the network round-trip, used in concrete instances. -/
def netStub : String → String → Except DIDCacheError Document :=
  fun _ _ => .error (.DIDError "offline")

/-- An external method resolver that succeeds with a fixed document. -/
def extOk : String → String → Except String Document :=
  fun _ _ => .ok "DOC"

/-- An external method resolver that always fails. -/
def extFail : String → String → Except String Document :=
  fun _ _ => .error "failure"

/-- C8.  The size guard of `resolve` accepts a DID of exactly
`max_did_size_in_kb * 1000` bytes and rejects a DID of one byte more; the
guard condition is `len(did)/1000 > max_did_size_in_kb`, the resulting
`DIDError` carries both the DID's size in KB and the configured limit, and
the guard fires before every other step of the pipeline: whenever it
trips, `resolve` returns that error unchanged for every cache state,
resolver outcome and hash. -/
theorem size_guard_spec (cfg : ClientConfig) (H : String → String)
    (netResolve : String → String → Except DIDCacheError Document)
    (ext : String → String → Except String Document)
    (cache : DocCache) (did : String) :
    (sizeGuard cfg did = none ↔ (did.length : ℚ) ≤ cfg.max_did_size_in_kb * 1000) ∧
    ((did.length : ℚ) = cfg.max_did_size_in_kb * 1000 → sizeGuard cfg did = none) ∧
    ((did.length : ℚ) = cfg.max_did_size_in_kb * 1000 + 1 →
      sizeGuard cfg did =
        some (.DIDError (sizeErrMsg ((did.length : ℚ) / 1000) cfg.max_did_size_in_kb))) ∧
    (∀ e, sizeGuard cfg did = some e →
      resolve cfg H netResolve ext cache did = (.error e, cache)) := by
  refine ⟨sizeGuard_isNone_iff cfg did, ?_, ?_, ?_⟩
  · intro heq
    exact (sizeGuard_isNone_iff cfg did).mpr (le_of_eq heq)
  · intro heq
    exact sizeGuard_eq_some cfg did (by rw [heq]; norm_num)
  · intro e he
    simp only [resolve, he]

/-- A configuration whose size limit is `1/100` KB (boundary at 10
bytes), for the C8 witness. -/
def smallSizeConfig : ClientConfig :=
  { service_address := none
    cache_capacity := 100
    cache_ttl := 300
    network_timeout := 5000
    network_cache_limit_count := 100
    max_did_parts := 5
    max_did_size_in_kb := 1 / 100 }

/-- Witness for C8: with limit `1/100` KB the 10-byte DID `did:key:ab` is
accepted and the 11-byte DID `did:key:abc` is rejected with the
size error, before anything else runs. -/
theorem size_guard_spec_witness :
    sizeGuard smallSizeConfig "did:key:ab" = none ∧
    sizeGuard smallSizeConfig "did:key:abc" =
      some (.DIDError (sizeErrMsg (("did:key:abc".length : ℚ) / 1000)
        smallSizeConfig.max_did_size_in_kb)) ∧
    resolve smallSizeConfig id netStub extOk [] "did:key:abc" =
      (.error (.DIDError (sizeErrMsg (("did:key:abc".length : ℚ) / 1000)
        smallSizeConfig.max_did_size_in_kb)), []) := by
  have hacc : ("did:key:ab".length : ℚ) = smallSizeConfig.max_did_size_in_kb * 1000 := by
    rw [show "did:key:ab".length = 10 from rfl]
    norm_num [smallSizeConfig]
  have hrej : ("did:key:abc".length : ℚ) = smallSizeConfig.max_did_size_in_kb * 1000 + 1 := by
    rw [show "did:key:abc".length = 11 from rfl]
    norm_num [smallSizeConfig]
  have h1 := (size_guard_spec smallSizeConfig id netStub extOk [] "did:key:ab").2.1 hacc
  have h2 := (size_guard_spec smallSizeConfig id netStub extOk [] "did:key:abc").2.2.1 hrej
  have h3 := (size_guard_spec smallSizeConfig id netStub extOk [] "did:key:abc").2.2.2 _ h2
  exact ⟨h1, h2, h3⟩

/-- C9.  The shape guard of `resolve`: a DID splitting on `:` into fewer
than 3 segments is rejected with `DIDError ("did isn't to spec! did
(...)")` (2 segments rejected, 3 accepted); a DID whose last colon-segment
splits on `.` into more than `max_did_parts` parts is rejected
(`max_did_parts` accepted, `max_did_parts + 1` rejected); and both checks
run before the cache lookup on every `resolve`: when either trips, the
result is that error for every cache state, resolver outcome and hash. -/
theorem shape_guard_spec (cfg : ClientConfig) (H : String → String)
    (netResolve : String → String → Except DIDCacheError Document)
    (ext : String → String → Except String Document)
    (cache : DocCache) (did : String) :
    (shapeGuard cfg did (splitOnChar ':' did) = none ↔
      3 ≤ (splitOnChar ':' did).length ∧
      (splitOnChar '.' ((splitOnChar ':' did).getLastD "")).length ≤ cfg.max_did_parts) ∧
    ((splitOnChar ':' did).length = 2 → sizeGuard cfg did = none →
      resolve cfg H netResolve ext cache did =
        (.error (.DIDError ("did isn't to spec! did (" ++ did ++ ")")), cache)) ∧
    (3 ≤ (splitOnChar ':' did).length →
      (splitOnChar '.' ((splitOnChar ':' did).getLastD "")).length = cfg.max_did_parts + 1 →
      sizeGuard cfg did = none →
      resolve cfg H netResolve ext cache did =
        (.error (.DIDError (partsErrMsg cfg.max_did_parts (splitOnChar ':' did).length)),
          cache)) ∧
    (∀ e, sizeGuard cfg did = none →
      shapeGuard cfg did (splitOnChar ':' did) = some e →
      resolve cfg H netResolve ext cache did = (.error e, cache)) := by
  have hguard : ∀ e, sizeGuard cfg did = none →
      shapeGuard cfg did (splitOnChar ':' did) = some e →
      resolve cfg H netResolve ext cache did = (.error e, cache) := by
    intro e hsz hsh
    simp only [resolve, hsz, hsh]
  refine ⟨?_, ?_, ?_, hguard⟩
  · simp only [shapeGuard]
    split_ifs with h1 h2
    · exact iff_of_false (by simp) (by omega)
    · exact iff_of_false (by simp) (by omega)
    · exact iff_of_true rfl ⟨by omega, by omega⟩
  · intro hlen hsz
    apply hguard _ hsz
    simp only [shapeGuard, hlen]
    rfl
  · intro hlen hparts hsz
    apply hguard _ hsz
    simp only [shapeGuard]
    rw [if_neg (by omega), if_pos (by omega)]

/-- Witness for C9 at the default configuration (`max_did_parts = 5`):
three segments with five dot-parts pass the guard, two segments are
rejected with the "isn't to spec" error, six dot-parts are rejected with
the parts error. -/
theorem shape_guard_spec_witness :
    shapeGuard defaultConfig "did:key:a.b.c.d.e" (splitOnChar ':' "did:key:a.b.c.d.e") =
      none ∧
    resolve defaultConfig id netStub extOk [] "did:key" =
      (.error (.DIDError ("did isn't to spec! did (" ++ "did:key" ++ ")")), []) ∧
    resolve defaultConfig id netStub extOk [] "did:key:a.b.c.d.e.f" =
      (.error (.DIDError (partsErrMsg 5 3)), []) := by
  have hsz1 : sizeGuard defaultConfig "did:key" = none := by
    apply (sizeGuard_isNone_iff _ _).mpr
    rw [show "did:key".length = 7 from rfl]
    norm_num [defaultConfig]
  have hsz2 : sizeGuard defaultConfig "did:key:a.b.c.d.e.f" = none := by
    apply (sizeGuard_isNone_iff _ _).mpr
    rw [show "did:key:a.b.c.d.e.f".length = 19 from rfl]
    norm_num [defaultConfig]
  refine ⟨?_, ?_, ?_⟩
  · exact (shape_guard_spec defaultConfig id netStub extOk [] "did:key:a.b.c.d.e").1.mpr
      ⟨by decide, by decide⟩
  · exact (shape_guard_spec defaultConfig id netStub extOk [] "did:key").2.1 (by decide) hsz1
  · exact (shape_guard_spec defaultConfig id netStub extOk []
      "did:key:a.b.c.d.e.f").2.2.1 (by decide) (by decide) hsz2

/-- C5 counterexample.  `resolve("did:xyz:abc")` (local mode, sound guards,
empty cache) returns `DIDError("DID Method (xyz) not supported")` from
`local_resolve`, **not** `UnsupportedMethod("xyz")`: the dispatch in
`resolver/mod.rs` wraps the unknown method in a `DIDError`, and the
`DIDMethod` parser that produces `UnsupportedMethod` only runs after a
successful resolution. -/
theorem unsupported_method_counterexample :
    (resolve defaultConfig id netStub extFail [] "did:xyz:abc").1 =
      .error (.DIDError "DID Method (xyz) not supported") ∧
    (resolve defaultConfig id netStub extFail [] "did:xyz:abc").1 ≠
      .error (.UnsupportedMethod "xyz") := by
  have hsz : sizeGuard defaultConfig "did:xyz:abc" = none := by
    apply (sizeGuard_isNone_iff _ _).mpr
    rw [show "did:xyz:abc".length = 11 from rfl]
    norm_num [defaultConfig]
  have h : (resolve defaultConfig id netStub extFail [] "did:xyz:abc").1 =
      .error (.DIDError "DID Method (xyz) not supported") := by
    simp only [resolve, hsz]
    decide
  exact ⟨h, by rw [h]; decide⟩

/-- C5 amended.  A DID whose method token (the second colon-segment) is not
one of the six exact lowercase tokens `ethr, jwk, key, peer, pkh, web`
resolves (local mode, guards passed, cache miss) to
`DIDError("DID Method (m) not supported")`; `UnsupportedMethod(m)` is
produced only by the `DIDMethod` parser — case-insensitive over the same
six tokens — which `resolve` applies after successful resolution. -/
theorem unsupported_method_amended (cfg : ClientConfig) (H : String → String)
    (netResolve : String → String → Except DIDCacheError Document)
    (ext : String → String → Except String Document)
    (cache : DocCache) (did : String)
    (hloc : cfg.service_address = none)
    (hsz : sizeGuard cfg did = none)
    (hsh : shapeGuard cfg did (splitOnChar ':' did) = none)
    (hmiss : cacheGet cache (H did) = none)
    (hm : ¬((splitOnChar ':' did).getD 1 "" = "ethr" ∨
          (splitOnChar ':' did).getD 1 "" = "jwk" ∨
          (splitOnChar ':' did).getD 1 "" = "key" ∨
          (splitOnChar ':' did).getD 1 "" = "peer" ∨
          (splitOnChar ':' did).getD 1 "" = "pkh" ∨
          (splitOnChar ':' did).getD 1 "" = "web")) :
    (resolve cfg H netResolve ext cache did).1 =
      .error (.DIDError
        ("DID Method (" ++ (splitOnChar ':' did).getD 1 "" ++ ") not supported")) ∧
    (∀ v : String,
      toLowerStr v ≠ "ethr" → toLowerStr v ≠ "jwk" → toLowerStr v ≠ "key" →
      toLowerStr v ≠ "peer" → toLowerStr v ≠ "pkh" → toLowerStr v ≠ "web" →
      DIDMethod.tryFrom v = .error (.UnsupportedMethod v)) := by
  constructor
  · simp only [resolve, hsz, hsh, hmiss, hloc, Option.isSome_none, Bool.false_eq_true,
      if_false, localResolve]
    rw [if_neg hm]
  · intro v h1 h2 h3 h4 h5 h6
    simp only [DIDMethod.tryFrom, h1, h2, h3, h4, h5, h6, if_false]

/-- Witness for the amended C5 at `did:xyz:abc`. -/
theorem unsupported_method_amended_witness :
    (resolve defaultConfig id netStub extFail [] "did:xyz:abc").1 =
      .error (.DIDError
        ("DID Method (" ++ (splitOnChar ':' "did:xyz:abc").getD 1 "" ++ ") not supported")) ∧
    DIDMethod.tryFrom "xyz" = .error (.UnsupportedMethod "xyz") := by
  have hsz : sizeGuard defaultConfig "did:xyz:abc" = none := by
    apply (sizeGuard_isNone_iff _ _).mpr
    rw [show "did:xyz:abc".length = 11 from rfl]
    norm_num [defaultConfig]
  have h := unsupported_method_amended defaultConfig id netStub extFail [] "did:xyz:abc"
    rfl hsz (by decide) rfl (by decide)
  exact ⟨h.1, h.2 "xyz" (by decide) (by decide) (by decide) (by decide) (by decide)
    (by decide)⟩

/-- C2.  A `resolve(d)` that passes the guards, misses the cache and
resolves successfully returns `cache_hit = false`; a second `resolve(d)`
against the resulting cache (same TTL window, no intervening removal or
eviction — the association-map cache embeds exactly that window) returns
`cache_hit = true` with the identical document (and the same DID, method
and hash), leaving the cache unchanged. -/
theorem resolve_twice_cache_hit (cfg : ClientConfig) (H : String → String)
    (netResolve : String → String → Except DIDCacheError Document)
    (ext : String → String → Except String Document)
    (cache : DocCache) (did : String) (r1 : ResolveResponse)
    (hmiss : cacheGet cache (H did) = none)
    (h1 : (resolve cfg H netResolve ext cache did).1 = .ok r1) :
    r1.cache_hit = false ∧
    (resolve cfg H netResolve ext (resolve cfg H netResolve ext cache did).2 did).1 =
      .ok { did := r1.did, method := r1.method, did_hash := r1.did_hash, doc := r1.doc,
            cache_hit := true } ∧
    (resolve cfg H netResolve ext (resolve cfg H netResolve ext cache did).2 did).2 =
      (resolve cfg H netResolve ext cache did).2 := by
  cases hsz : sizeGuard cfg did with
  | some e =>
    rw [show (resolve cfg H netResolve ext cache did) = (.error e, cache) by
      simp only [resolve, hsz]] at h1
    exact Except.noConfusion h1
  | none =>
  cases hsh : shapeGuard cfg did (splitOnChar ':' did) with
  | some e =>
    rw [show (resolve cfg H netResolve ext cache did) = (.error e, cache) by
      simp only [resolve, hsz, hsh]] at h1
    exact Except.noConfusion h1
  | none =>
  cases hres : (if cfg.service_address.isSome then netResolve did (H did)
      else localResolve ext did (splitOnChar ':' did)) with
  | error e =>
    rw [show (resolve cfg H netResolve ext cache did) = (.error e, cache) by
      simp only [resolve, hsz, hsh, hmiss, hres]] at h1
    exact Except.noConfusion h1
  | ok doc =>
  cases htf : DIDMethod.tryFrom ((splitOnChar ':' did).getD 1 "") with
  | error e =>
    rw [show (resolve cfg H netResolve ext cache did) =
        (.error e, cacheInsert cache (H did) doc) by
      simp only [resolve, hsz, hsh, hmiss, hres, htf]] at h1
    exact Except.noConfusion h1
  | ok m =>
    have hfirst : resolve cfg H netResolve ext cache did =
        (.ok { did := did, method := m, did_hash := H did, doc := doc,
               cache_hit := false }, cacheInsert cache (H did) doc) := by
      simp only [resolve, hsz, hsh, hmiss, hres, htf]
    rw [hfirst] at h1
    have hr1 : r1 = { did := did, method := m, did_hash := H did, doc := doc,
                      cache_hit := false } := (Except.ok.inj h1).symm
    have hhit : cacheGet (cacheInsert cache (H did) doc) (H did) = some doc :=
      cacheGet_cacheInsert_self cache (H did) doc
    have hsecond : resolve cfg H netResolve ext (cacheInsert cache (H did) doc) did =
        (.ok { did := did, method := m, did_hash := H did, doc := doc,
               cache_hit := true }, cacheInsert cache (H did) doc) := by
      simp only [resolve, hsz, hsh, hhit, htf]
    rw [hfirst, hr1]
    exact ⟨rfl, by rw [hsecond], by rw [hsecond]⟩

/-- Witness for C2: resolving `did:key:abc` twice from the empty cache. -/
theorem resolve_twice_cache_hit_witness :
    (resolve defaultConfig id netStub extOk
        ((resolve defaultConfig id netStub extOk [] "did:key:abc").2) "did:key:abc").1 =
      .ok { did := "did:key:abc", method := .KEY, did_hash := "did:key:abc",
            doc := "DOC", cache_hit := true } := by
  have hsz : sizeGuard defaultConfig "did:key:abc" = none := by
    apply (sizeGuard_isNone_iff _ _).mpr
    rw [show "did:key:abc".length = 11 from rfl]
    norm_num [defaultConfig]
  have h1 : (resolve defaultConfig id netStub extOk [] "did:key:abc").1 =
      .ok { did := "did:key:abc", method := .KEY, did_hash := "did:key:abc",
            doc := "DOC", cache_hit := false } := by
    simp only [resolve, hsz]
    decide
  exact (resolve_twice_cache_hit defaultConfig id netStub extOk [] "did:key:abc"
    { did := "did:key:abc", method := .KEY, did_hash := "did:key:abc",
      doc := "DOC", cache_hit := false } rfl h1).2.1

/-! ## Wire frames (§4.3; `networking/mod.rs` is absent from the sources)

Modelled from the spec: the frame structs `WSRequest`, `WSResponse`,
`WSResponseError` and the envelope `WSResponseType` live in
`networking/mod.rs`, which is not among the sources; their shapes are
fixed by spec §4.3 and by their field uses in `network.rs` and
`websocket.rs`. -/

/-- Modelled from the spec: the Request frame `{ did, hash }`. -/
structure WSRequest where
  did : String
  hash : String
deriving Repr, DecidableEq

/-- Modelled from the spec: the success Response frame
`{ did, hash, document }`. -/
structure WSResponse where
  did : String
  hash : String
  document : Document
deriving Repr, DecidableEq

/-- Modelled from the spec: the Error frame `{ did, hash, error }`. -/
structure WSResponseError where
  did : String
  hash : String
  error : String
deriving Repr, DecidableEq

/-- Modelled from the spec: the tagged response envelope. -/
inductive WSResponseType where
  | Response (r : WSResponse)
  | Error (e : WSResponseError)
deriving Repr, DecidableEq

/-! ## NetworkTask (`networking/network.rs`)

`NetworkTask::run` owns the `RequestList` and serializes all mutation of
it; its `select!` loop consumes SDK commands and inbound websocket items.
One loop iteration is embedded as a step function from an event to the
new `RequestList` and the observable outputs; `serde_json::from_str` on
inbound text is the parameter `P`, the Blake2s hash the parameter `H`. -/

/-- One item consumed by `NetworkTask::run`'s `select!` loop:
`WSCommands::Send`, `WSCommands::TimeOut`, or an inbound websocket text /
non-text / failed receive. -/
inductive NTEvent where
  | cmdSend (channel : Responder) (uid : String) (request : WSRequest)
  | cmdTimeout (uid : String) (didHash : String)
  | wsText (payload : String)
  | wsNonText
  | wsFailure
deriving Repr, DecidableEq

/-- Observable effect of one `NetworkTask` step: a Request frame written to
the wire (`ws_send`), or a notification into a caller's oneshot channel
(`WSCommands::ResponseReceived` / `WSCommands::ErrorReceived`). -/
inductive NTOut where
  | wireRequest (request : WSRequest)
  | notifyDoc (channel : Responder) (document : Document)
  | notifyErr (channel : Responder) (error : String)
deriving Repr, DecidableEq

/-- One iteration of `NetworkTask::run`'s loop body together with
`NetworkTask::ws_recv`:

* `Send(channel, uid, request)`: hash `request.did`, `RequestList::insert`;
  write the frame to the wire only when insert returned `true`;
* `TimeOut(uid, did_hash)`: `RequestList::remove(did_hash, Some(uid))`;
* inbound text: parse; a `Response`/`Error` removes the whole entry for its
  hash and fans out to every waiting channel (unknown hash: logged,
  dropped); a parse failure is logged and dropped;
* non-text frames and receive failures leave the list untouched (a failure
  resets the websocket, `RequestList` is preserved). -/
def ntStep (H : String → String) (P : String → Option WSResponseType)
    (rl : RequestList) : NTEvent → RequestList × List NTOut
  | .cmdSend channel uid request =>
    let did_hash := H request.did
    let res := rl.insert did_hash uid channel
    if res.2 then (res.1, [.wireRequest request]) else (res.1, [])
  | .cmdTimeout uid didHash => ((rl.remove didHash (some uid)).1, [])
  | .wsText payload =>
    match P payload with
    | some (.Response r) =>
      let res := rl.remove r.hash none
      match res.2 with
      | some channels => (res.1, channels.map (fun ch => .notifyDoc ch r.document))
      | none => (res.1, [])
    | some (.Error er) =>
      let res := rl.remove er.hash none
      match res.2 with
      | some channels => (res.1, channels.map (fun ch => .notifyErr ch er.error))
      | none => (res.1, [])
    | none => (rl, [])
  | .wsNonText => (rl, [])
  | .wsFailure => (rl, [])

/-- A run of `NetworkTask::run` over a sequence of loop items, collecting
the outputs. -/
def ntRun (H : String → String) (P : String → Option WSResponseType)
    (rl : RequestList) : List NTEvent → RequestList × List NTOut
  | [] => (rl, [])
  | e :: rest =>
    let res := ntStep H P rl e
    let res2 := ntRun H P res.1 rest
    (res2.1, res.2 ++ res2.2)

/-- A key stays present across `RequestList::insert` on that key. -/
theorem lookupKey_insert_self (rl : RequestList) (key uid : String) (ch : Responder) :
    (lookupKey ((rl.insert key uid ch).1).list key).isSome := by
  unfold RequestList.insert
  cases hlk : lookupKey rl.list key with
  | some channels =>
    simp only
    rw [lookupKey_updateEntry_self, hlk]
    rfl
  | none =>
    by_cases hgt : rl.total_count + 1 > rl.limit_count <;>
      simp only [hgt, if_pos, if_neg, not_false_iff] <;>
      simp [lookupKey_append_self rl.list key _ hlk]

/-- A run consisting only of submissions for one DID whose hash is already
in flight emits no frame and keeps the hash in flight. -/
theorem ntRun_sends_present (H : String → String) (P : String → Option WSResponseType)
    (d : String) (subs : List (Responder × String × WSRequest)) :
    ∀ rl : RequestList, (lookupKey rl.list (H d)).isSome →
      (∀ s ∈ subs, s.2.2.did = d) →
      (ntRun H P rl (subs.map (fun s => NTEvent.cmdSend s.1 s.2.1 s.2.2))).2 = [] := by
  induction subs with
  | nil =>
    intro rl _ _
    simp [ntRun]
  | cons s rest ih =>
    intro rl hin hd
    have hsd : s.2.2.did = d := hd s (List.mem_cons_self s rest)
    have hsome : (lookupKey rl.list (H s.2.2.did)).isSome := by
      rw [hsd]
      exact hin
    obtain ⟨v, hv⟩ := Option.isSome_iff_exists.mp hsome
    have hstep : ntStep H P rl (.cmdSend s.1 s.2.1 s.2.2) =
        ((rl.insert (H s.2.2.did) s.2.1 s.1).1, []) := by
      simp only [ntStep, RequestList.insert, hv, Bool.false_eq_true, if_false]
    have hnext : (lookupKey ((rl.insert (H s.2.2.did) s.2.1 s.1).1).list (H d)).isSome := by
      rw [hsd]
      exact lookupKey_insert_self _ _ _ _
    simp only [List.map_cons, ntRun, hstep, List.nil_append]
    exact ih _ hnext (fun q hq => hd q (List.mem_cons_of_mem _ hq))

/-- C1 counterexample.  The "at most one outbound Request frame per
`did_hash` at any moment" guarantee fails once a timeout removes the last
waiter while the frame is still outstanding: submit, time out, submit
again — two Request frames for the same DID are written to the wire while
no response has arrived. -/
theorem coalescing_counterexample :
    (ntRun id (fun _ => none) (RequestList.new 100)
      [.cmdSend 1 "u1" { did := "did:web:x", hash := "h" },
       .cmdTimeout "u1" "did:web:x",
       .cmdSend 2 "u2" { did := "did:web:x", hash := "h" }]).2 =
      [.wireRequest { did := "did:web:x", hash := "h" },
       .wireRequest { did := "did:web:x", hash := "h" }] := by
  decide

/-- C1 amended.  (a) Per step: a submit command for a DID whose hash is
already in the `RequestList` appends the caller (insert returns `false`)
and writes no Request frame.  (b) Consequently, for any number of
submissions of the same DID processed from a fresh `RequestList` with no
intervening timeout or response, exactly one Request frame — the first
submission's — is emitted on the wire; at most one outbound request per
`did_hash` therefore exists as long as no timeout empties the entry while
its frame is outstanding (the counterexample shows the flag-free timeout
path breaks the unconditional claim). -/
theorem coalescing_amended (H : String → String) (P : String → Option WSResponseType)
    (rl : RequestList) (ch : Responder) (uid : String) (req : WSRequest)
    (hin : (lookupKey rl.list (H req.did)).isSome)
    (limit : Nat) (d : String) (first : Responder × String × WSRequest)
    (rest : List (Responder × String × WSRequest))
    (hd : ∀ s ∈ first :: rest, s.2.2.did = d) :
    ((rl.insert (H req.did) uid ch).2 = false ∧
      ntStep H P rl (.cmdSend ch uid req) = ((rl.insert (H req.did) uid ch).1, [])) ∧
    (ntRun H P (RequestList.new limit)
        ((first :: rest).map (fun s => NTEvent.cmdSend s.1 s.2.1 s.2.2))).2 =
      [.wireRequest first.2.2] := by
  obtain ⟨v, hv⟩ := Option.isSome_iff_exists.mp hin
  constructor
  · constructor
    · simp only [RequestList.insert, hv]
    · simp only [ntStep, RequestList.insert, hv, Bool.false_eq_true, if_false]
  · have hfd : first.2.2.did = d := hd first (List.mem_cons_self first rest)
    have hnew : lookupKey (RequestList.new limit).list (H first.2.2.did) = none := rfl
    have hstep : ntStep H P (RequestList.new limit)
        (.cmdSend first.1 first.2.1 first.2.2) =
        (((RequestList.new limit).insert (H first.2.2.did) first.2.1 first.1).1,
          [.wireRequest first.2.2]) := by
      simp only [ntStep, RequestList.insert, hnew, if_true]
    have hpresent : (lookupKey
        (((RequestList.new limit).insert (H first.2.2.did) first.2.1 first.1).1).list
        (H d)).isSome := by
      rw [hfd]
      exact lookupKey_insert_self _ _ _ _
    simp only [List.map_cons, ntRun, hstep]
    rw [ntRun_sends_present H P d rest _ hpresent
      (fun q hq => hd q (List.mem_cons_of_mem _ hq))]
    rfl

/-- Witness for the amended C1: two concurrent submissions of
`did:web:x` emit exactly the one frame of the first submission, and the
second submission's insert returns `false` without writing a frame. -/
theorem coalescing_amended_witness :
    ((((RequestList.new 100).insert "did:web:x" "u1" 1).1.insert "did:web:x" "u2" 2).2
       = false ∧
     ntStep id (fun _ => none) ((RequestList.new 100).insert "did:web:x" "u1" 1).1
        (.cmdSend 2 "u2" { did := "did:web:x", hash := "h" }) =
       ((((RequestList.new 100).insert "did:web:x" "u1" 1).1.insert "did:web:x" "u2" 2).1,
        [])) ∧
    (ntRun id (fun _ => none) (RequestList.new 100)
        ([((1 : Responder), "u1", ({ did := "did:web:x", hash := "h" } : WSRequest)),
          ((2 : Responder), "u2", ({ did := "did:web:x", hash := "h" } : WSRequest))].map
          (fun s => NTEvent.cmdSend s.1 s.2.1 s.2.2))).2 =
      [.wireRequest { did := "did:web:x", hash := "h" }] :=
  coalescing_amended id (fun _ => none) ((RequestList.new 100).insert "did:web:x" "u1" 1).1
    2 "u2" { did := "did:web:x", hash := "h" } (by decide) 100 "did:web:x"
    ((1 : Responder), "u1", ({ did := "did:web:x", hash := "h" } : WSRequest))
    [((2 : Responder), "u2", ({ did := "did:web:x", hash := "h" } : WSRequest))]
    (by decide)

/-! ## The server's per-connection loop (`handlers/websocket.rs`)

`handle_socket` is spawned per accepted connection; `state.resolver` is
the server's own `DIDCacheClient` (the `resolve` embedding above), its
shared document cache threaded through the loop.  `serde_json::from_str::
<WSRequest>` is the parameter `P`; the `Display` rendering of resolver
errors (`e.to_string()`, `errors.rs` is absent from the sources) is the
parameter `errToString`.  Socket sends are assumed to succeed (a failed
send breaks the loop in the source; transport faults are outside these
claims). -/

/-- One websocket message as seen by `handle_socket`. -/
inductive SrvMsg where
  | text (payload : String)
  | nonText
deriving Repr, DecidableEq

/-- One `socket.recv()` item: `None` (socket closed — `break`),
`Some(Err(_))` (the `if let Ok` falls through, the loop continues), or
`Some(Ok(msg))`. -/
inductive SrvRecv where
  | closed
  | failed
  | msg (m : SrvMsg)
deriving Repr, DecidableEq

/-- The body of `handle_socket` for one decoded Request: resolve
`request.did` through the server's resolver; a success is answered with a
Response frame carrying the resolver's `did_hash` (recomputed from the
DID) and document, a failure with an Error frame carrying the request's
`hash` field verbatim and the rendered error string. -/
def serverStep (cfg : ClientConfig) (H : String → String)
    (netResolve : String → String → Except DIDCacheError Document)
    (ext : String → String → Except String Document)
    (errToString : DIDCacheError → String)
    (cache : DocCache) (req : WSRequest) : DocCache × WSResponseType :=
  let res := resolve cfg H netResolve ext cache req.did
  match res.1 with
  | .ok r => (res.2, .Response { did := r.did, hash := r.did_hash, document := r.doc })
  | .error e =>
    (res.2, .Error { did := req.did, hash := req.hash, error := errToString e })

/-- The receive loop of `handle_socket`: collects the frames written back
and whether the loop exited via `break` (tearing the connection down)
before exhausting the input.  A text frame that fails to parse hits the
`Err(e) => { warn!(...); break; }` arm: the connection is torn down. -/
def serverRun (cfg : ClientConfig) (H : String → String)
    (netResolve : String → String → Except DIDCacheError Document)
    (ext : String → String → Except String Document)
    (errToString : DIDCacheError → String)
    (P : String → Option WSRequest) :
    DocCache → List SrvRecv → DocCache × List WSResponseType × Bool
  | cache, [] => (cache, [], false)
  | cache, ev :: rest =>
    match ev with
    | .closed => (cache, [], true)
    | .failed => serverRun cfg H netResolve ext errToString P cache rest
    | .msg .nonText => serverRun cfg H netResolve ext errToString P cache rest
    | .msg (.text payload) =>
      match P payload with
      | none => (cache, [], true)
      | some req =>
        let res := serverStep cfg H netResolve ext errToString cache req
        let rec2 := serverRun cfg H netResolve ext errToString P res.1 rest
        (rec2.1, res.2 :: rec2.2.1, rec2.2.2)

/-- `Display` for resolver errors, a stub for concrete instances. -/
def errStub : DIDCacheError → String := fun _ => "resolver error"

/-- A frame parser stub: only the payload `"good"` decodes. -/
def parseStub : String → Option WSRequest :=
  fun s => if s = "good" then some { did := "did:key:abc", hash := "hh" } else none

/-- A successful `resolve` reports the requested DID and its recomputed
hash. -/
theorem resolve_ok_fields (cfg : ClientConfig) (H : String → String)
    (netResolve : String → String → Except DIDCacheError Document)
    (ext : String → String → Except String Document)
    (cache : DocCache) (did : String) (r : ResolveResponse)
    (h : (resolve cfg H netResolve ext cache did).1 = .ok r) :
    r.did = did ∧ r.did_hash = H did := by
  cases hsz : sizeGuard cfg did with
  | some e =>
    rw [show (resolve cfg H netResolve ext cache did) = (.error e, cache) by
      simp only [resolve, hsz]] at h
    exact Except.noConfusion h
  | none =>
  cases hsh : shapeGuard cfg did (splitOnChar ':' did) with
  | some e =>
    rw [show (resolve cfg H netResolve ext cache did) = (.error e, cache) by
      simp only [resolve, hsz, hsh]] at h
    exact Except.noConfusion h
  | none =>
  cases hget : cacheGet cache (H did) with
  | some doc =>
    cases htf : DIDMethod.tryFrom ((splitOnChar ':' did).getD 1 "") with
    | error e =>
      rw [show (resolve cfg H netResolve ext cache did) = (.error e, cache) by
        simp only [resolve, hsz, hsh, hget, htf]] at h
      exact Except.noConfusion h
    | ok m =>
      rw [show (resolve cfg H netResolve ext cache did) =
          (.ok { did := did, method := m, did_hash := H did, doc := doc,
                 cache_hit := true }, cache) by
        simp only [resolve, hsz, hsh, hget, htf]] at h
      rw [← Except.ok.inj h]
      exact ⟨rfl, rfl⟩
  | none =>
    cases hres : (if cfg.service_address.isSome then netResolve did (H did)
        else localResolve ext did (splitOnChar ':' did)) with
    | error e =>
      rw [show (resolve cfg H netResolve ext cache did) = (.error e, cache) by
        simp only [resolve, hsz, hsh, hget, hres]] at h
      exact Except.noConfusion h
    | ok doc =>
      cases htf : DIDMethod.tryFrom ((splitOnChar ':' did).getD 1 "") with
      | error e =>
        rw [show (resolve cfg H netResolve ext cache did) =
            (.error e, cacheInsert cache (H did) doc) by
          simp only [resolve, hsz, hsh, hget, hres, htf]] at h
        exact Except.noConfusion h
      | ok m =>
        rw [show (resolve cfg H netResolve ext cache did) =
            (.ok { did := did, method := m, did_hash := H did, doc := doc,
                   cache_hit := false }, cacheInsert cache (H did) doc) by
          simp only [resolve, hsz, hsh, hget, hres, htf]] at h
        rw [← Except.ok.inj h]
        exact ⟨rfl, rfl⟩

/-- C6 counterexample.  The server does **not** drop a malformed frame and
continue: `handle_socket` hits `break` on a parse failure, so a valid
Request following a bad frame on the same connection is never answered,
while the same Request alone is answered.  (The SDK side does drop and
continue — see the amended theorem.) -/
theorem bad_frame_counterexample :
    (serverRun defaultConfig id netStub extFail errStub parseStub []
        [.msg (.text "bad"), .msg (.text "good")]).2 =
      ([], true) ∧
    (serverRun defaultConfig id netStub extFail errStub parseStub []
        [.msg (.text "good")]).2 =
      ([.Error { did := "did:key:abc", hash := "hh", error := "resolver error" }],
        false) := by
  have hsz : sizeGuard defaultConfig "did:key:abc" = none := by
    apply (sizeGuard_isNone_iff _ _).mpr
    rw [show "did:key:abc".length = 11 from rfl]
    norm_num [defaultConfig]
  constructor
  · simp only [serverRun, parseStub]
    decide
  · have hstep : serverStep defaultConfig id netStub extFail errStub []
        { did := "did:key:abc", hash := "hh" } =
        ([], .Error { did := "did:key:abc", hash := "hh", error := "resolver error" }) := by
      simp only [serverStep, resolve, hsz]
      decide
    simp only [serverRun, parseStub, if_true, hstep]

/-- C6 amended.  A text frame that fails to deserialize is logged and
dropped **by the SDK's `NetworkTask::ws_recv`**: the `RequestList` is
untouched, nothing is emitted, and the receive loop continues with the
remaining events.  The server's `handle_socket`, by contrast, tears the
connection down (`break`) on the first malformed frame, answering nothing
further on that connection. -/
theorem bad_frame_amended (H : String → String) (P : String → Option WSResponseType)
    (rl : RequestList) (payload : String) (rest : List NTEvent)
    (hbad : P payload = none)
    (cfg : ClientConfig) (netResolve : String → String → Except DIDCacheError Document)
    (ext : String → String → Except String Document)
    (errToString : DIDCacheError → String) (Ps : String → Option WSRequest)
    (cache : DocCache) (payload2 : String) (rest2 : List SrvRecv)
    (hbad2 : Ps payload2 = none) :
    (ntStep H P rl (.wsText payload) = (rl, []) ∧
      ntRun H P rl (.wsText payload :: rest) = ntRun H P rl rest) ∧
    serverRun cfg H netResolve ext errToString Ps cache
        (.msg (.text payload2) :: rest2) =
      (cache, [], true) := by
  refine ⟨⟨?_, ?_⟩, ?_⟩
  · simp only [ntStep, hbad]
  · simp only [ntRun, ntStep, hbad, List.nil_append]
  · simp only [serverRun, hbad2]

/-- Witness for the amended C6 at concrete inputs. -/
theorem bad_frame_amended_witness :
    (ntStep id (fun _ => none) (RequestList.new 100) (.wsText "junk") =
        (RequestList.new 100, []) ∧
      ntRun id (fun _ => none) (RequestList.new 100) [.wsText "junk", .wsNonText] =
        ntRun id (fun _ => none) (RequestList.new 100) [.wsNonText]) ∧
    serverRun defaultConfig id netStub extOk errStub parseStub []
        [.msg (.text "junk"), .msg (.text "good")] =
      ([], [], true) :=
  bad_frame_amended id (fun _ => none) (RequestList.new 100) "junk" [.wsNonText] rfl
    defaultConfig netStub extOk errStub parseStub [] "junk"
    [.msg (.text "good")] (by decide)

/-- C7 counterexample.  On a successful resolution the server answers with
the `did_hash` recomputed from the request's `did`, **not** with the
request's `hash` field: a Request carrying `hash = "bogus"` is answered by
a Response whose hash differs from it.  (Only the Error frame echoes the
request's hash verbatim.) -/
theorem echo_hash_counterexample :
    (serverStep defaultConfig (fun s => String.append "h" s) netStub extOk errStub []
        { did := "did:key:abc", hash := "bogus" }).2 =
      .Response { did := "did:key:abc", hash := "hdid:key:abc", document := "DOC" } ∧
    "hdid:key:abc" ≠ "bogus" := by
  have hsz : sizeGuard defaultConfig "did:key:abc" = none := by
    apply (sizeGuard_isNone_iff _ _).mpr
    rw [show "did:key:abc".length = 11 from rfl]
    norm_num [defaultConfig]
  constructor
  · simp only [serverStep, resolve, hsz]
    decide
  · decide

/-- C7 amended.  For every decoded Request the server writes back exactly
one frame and the loop continues (the connection is not closed by either
branch, socket sends succeeding): on success a Response frame carrying the
`did_hash` recomputed from the request's `did` — equal to the request's
`hash` field exactly when the client computed it with the same hash — and
the resolved document; on failure an Error frame carrying the request's
`hash` verbatim and the rendered error string. -/
theorem server_response_per_request (cfg : ClientConfig) (H : String → String)
    (netResolve : String → String → Except DIDCacheError Document)
    (ext : String → String → Except String Document)
    (errToString : DIDCacheError → String) (P : String → Option WSRequest)
    (cache : DocCache) (payload : String) (req : WSRequest) (rest : List SrvRecv)
    (hp : P payload = some req) :
    (∀ r, (resolve cfg H netResolve ext cache req.did).1 = .ok r →
      (serverStep cfg H netResolve ext errToString cache req).2 =
        .Response { did := req.did, hash := H req.did, document := r.doc }) ∧
    (∀ e, (resolve cfg H netResolve ext cache req.did).1 = .error e →
      (serverStep cfg H netResolve ext errToString cache req).2 =
        .Error { did := req.did, hash := req.hash, error := errToString e }) ∧
    (serverRun cfg H netResolve ext errToString P cache
        (.msg (.text payload) :: rest)).2.1 =
      (serverStep cfg H netResolve ext errToString cache req).2 ::
        (serverRun cfg H netResolve ext errToString P
          ((serverStep cfg H netResolve ext errToString cache req).1) rest).2.1 ∧
    (serverRun cfg H netResolve ext errToString P cache
        (.msg (.text payload) :: rest)).2.2 =
      (serverRun cfg H netResolve ext errToString P
        ((serverStep cfg H netResolve ext errToString cache req).1) rest).2.2 := by
  refine ⟨?_, ?_, ?_, ?_⟩
  · intro r hok
    obtain ⟨hdid, hhash⟩ := resolve_ok_fields cfg H netResolve ext cache req.did r hok
    simp only [serverStep, hok]
    rw [hdid, hhash]
  · intro e herr
    simp only [serverStep, herr]
  · simp only [serverRun, hp]
  · simp only [serverRun, hp]

/-- Witness for the amended C7: one success (hash recomputed from the DID)
and one failure (request hash echoed verbatim), each answered by exactly
one frame with the connection left open. -/
theorem server_response_per_request_witness :
    (serverStep defaultConfig id netStub extOk errStub []
        { did := "did:key:abc", hash := "hh" }).2 =
      .Response { did := "did:key:abc", hash := "did:key:abc", document := "DOC" } ∧
    (serverStep defaultConfig id netStub extFail errStub []
        { did := "did:key:abc", hash := "hh" }).2 =
      .Error { did := "did:key:abc", hash := "hh", error := "resolver error" } ∧
    (serverRun defaultConfig id netStub extOk errStub parseStub []
        [.msg (.text "good")]).2.1 =
      [(serverStep defaultConfig id netStub extOk errStub []
        { did := "did:key:abc", hash := "hh" }).2] := by
  have hsz : sizeGuard defaultConfig "did:key:abc" = none := by
    apply (sizeGuard_isNone_iff _ _).mpr
    rw [show "did:key:abc".length = 11 from rfl]
    norm_num [defaultConfig]
  have hok : (resolve defaultConfig id netStub extOk [] "did:key:abc").1 =
      .ok { did := "did:key:abc", method := .KEY, did_hash := "did:key:abc",
            doc := "DOC", cache_hit := false } := by
    simp only [resolve, hsz]
    decide
  have herr : (resolve defaultConfig id netStub extFail [] "did:key:abc").1 =
      .error (.DIDError "failure") := by
    simp only [resolve, hsz]
    decide
  refine ⟨?_, ?_, ?_⟩
  · exact (server_response_per_request defaultConfig id netStub extOk errStub parseStub
      [] "good" { did := "did:key:abc", hash := "hh" } [] (by decide)).1 _ hok
  · exact (server_response_per_request defaultConfig id netStub extFail errStub parseStub
      [] "good" { did := "did:key:abc", hash := "hh" } [] (by decide)).2.1 _ herr
  · have h3 := (server_response_per_request defaultConfig id netStub extOk errStub
      parseStub [] "good" { did := "did:key:abc", hash := "hh" } [] (by decide)).2.2.1
    rw [h3]
    rfl

end DidResolver
